import Mathlib

/-!
# Verification of the pointer-activity-monitoring core

A shallow embedding of `pointer_monitor.py` (class `PointerActivityMonitor`):
the monitor-topology bounds derivation, the y-coordinate normalization and
2-D histogram binning of `create_heatmap`, the JSON persistence round-trip of
`save_data` / `load_data`, and the `start_monitoring` / `stop_monitoring` /
`show_visualization` state machine.
-/

namespace PointerMonitor

/-- A screen region as reported by `screeninfo.get_monitors()`:
origin `(x, y)` in virtual-desktop coordinates (possibly negative),
plus `width` and `height`. -/
structure Screen where
  x : Int
  y : Int
  width : Int
  height : Int
deriving DecidableEq, Repr

/-- The virtual-desktop bounds `self.min_x / max_x / min_y / max_y`
computed in `PointerActivityMonitor.__init__`. -/
structure Bounds where
  min_x : Int
  max_x : Int
  min_y : Int
  max_y : Int
deriving DecidableEq, Repr

/-- Bounds derivation of `__init__` (lines 40-43) for a non-empty screen
list `s0 :: rest`:
`min_x = min(screen.x)`, `max_x = max(screen.x + screen.width)`,
`min_y = 0` (the code comment: "Start from 0 since we convert negative Y
to absolute"), `max_y = max(screen.y + screen.height)`. -/
def resolveBounds (s0 : Screen) (rest : List Screen) : Bounds :=
  { min_x := rest.foldl (fun m s => min m s.x) s0.x
    max_x := rest.foldl (fun m s => max m (s.x + s.width)) (s0.x + s0.width)
    min_y := 0
    max_y := rest.foldl (fun m s => max m (s.y + s.height)) (s0.y + s0.height) }

/-- The spec's formula for `min_y`: "min over regions of region.y"
(written from the spec's words, for comparison with `resolveBounds`). -/
def specMinY (s0 : Screen) (rest : List Screen) : Int :=
  rest.foldl (fun m s => min m s.y) s0.y

/-- A raw pointer sample as appended by `on_mouse_move`:
`{'x': x, 'y': y, 'timestamp': t, 'session': session_start_time}`. -/
structure RawSample where
  x : Int
  y : Int
  timestamp : ℚ
  session : Option String
deriving DecidableEq, Repr

/-- The y-coordinate fix of `create_heatmap` (lines 197-210):
`if y < 0: y = abs(y)`, otherwise `y` is kept as is. -/
def normY (y : Int) : Int :=
  if y < 0 then -y else y

/-- `np.linspace(self.min_x, self.max_x, 120)` produces 120 bin *edges*. -/
def numEdges : Nat := 120

/-- A sequence of `numEdges` edges delimits `numEdges - 1 = 119` bins per
axis in `np.histogram2d`. -/
def numBins : Nat := numEdges - 1

/-- Bin index assignment of `np.histogram2d` along one axis over `n`
equal-width bins spanning `[lo, hi]`: values outside `[lo, hi]` are
dropped (`none`); a value equal to the right-most edge `hi` falls in the
last bin; otherwise the value lands in bin `⌊(v - lo) * n / (hi - lo)⌋`. -/
def binIndex1D (lo hi : Int) (n : Nat) (v : Int) : Option Nat :=
  if v < lo ∨ hi < v then none
  else if v = hi then some (n - 1)
  else some (((v - lo) * n / (hi - lo)).toNat)

/-- The full per-sample pipeline of `create_heatmap`: normalize the y
coordinate, then bin both coordinates over the resolved bounds;
`none` when `np.histogram2d` drops the sample as out of range. -/
def binSample (b : Bounds) (p : RawSample) : Option (Nat × Nat) :=
  match binIndex1D b.min_x b.max_x numBins p.x,
        binIndex1D b.min_y b.max_y numBins (normY p.y) with
  | some i, some j => some (i, j)
  | _, _ => none

/-- Count of samples of `samples` that `np.histogram2d` places in
cell `(i, j)`. -/
def cellCount (b : Bounds) (samples : List RawSample) (i j : Nat) : Nat :=
  samples.countP (fun p => decide (binSample b p = some (i, j)))

/-- The density grid `heatmap_data` produced by `create_heatmap`
(line 220): a 2-D array of per-cell counts. -/
def heatmapGrid (b : Bounds) (samples : List RawSample) : List (List Nat) :=
  (List.range numBins).map fun i =>
    (List.range numBins).map fun j => cellCount b samples i j

/-- The sum of all cell counts of the density grid. -/
def gridSum (b : Bounds) (samples : List RawSample) : Nat :=
  ((heatmapGrid b samples).map List.sum).sum

/-! ## Persistence: `save_data` / `load_data` via the JSON file -/

/-- A JSON value as produced by Python's `json` module for the data this
program writes: numbers, strings, `null`, arrays and objects. -/
inductive JValue where
  | jnull : JValue
  | jnum : ℚ → JValue
  | jstr : String → JValue
  | jarr : List JValue → JValue
  | jobj : List (String × JValue) → JValue

/-- JSON encoding of one sample record, in the key order `json.dump`
emits for the dict built by `on_mouse_move`. -/
def encodeSample (s : RawSample) : JValue :=
  .jobj [("x", .jnum s.x), ("y", .jnum s.y),
         ("timestamp", .jnum s.timestamp),
         ("session", match s.session with
                     | none => .jnull
                     | some t => .jstr t)]

/-- The whole-file representation `save_data` writes: the JSON array of
all sample records. -/
def encodeFile (samples : List RawSample) : JValue :=
  .jarr (samples.map encodeSample)

/-- Read back an integer field from a JSON number. -/
def jint : JValue → Option Int
  | .jnum q => if q.den = 1 then some q.num else none
  | _ => none

/-- Read back the `session` field: a string or `null`. -/
def decodeSession : JValue → Option (Option String)
  | .jnull => some none
  | .jstr s => some (some s)
  | _ => none

/-- Decode one persisted sample record. -/
def decodeSample : JValue → Option RawSample
  | .jobj [("x", vx), ("y", vy), ("timestamp", .jnum qt), ("session", vs)] =>
    match jint vx, jint vy, decodeSession vs with
    | some x, some y, some sess => some ⟨x, y, qt, sess⟩
    | _, _, _ => none
  | _ => none

/-- Decode a list of persisted sample records. -/
def decodeSamples : List JValue → Option (List RawSample)
  | [] => some []
  | v :: rest =>
    match decodeSample v, decodeSamples rest with
    | some s, some l => some (s :: l)
    | _, _ => none

/-- Decode a whole persisted file back into a sample sequence. -/
def decodeFile : JValue → Option (List RawSample)
  | .jarr vs => decodeSamples vs
  | _ => none

/-- The state of the data file as seen by `load_data`: absent
(`os.path.exists` is false), present but not parseable by `json.load`
(which then raises), or present with a parsed JSON value. -/
inductive FileContent where
  | missing : FileContent
  | unparseable : FileContent
  | parsed : JValue → FileContent

/-- `save_data` (lines 161-168) dumps the current sample list verbatim to
the data file. -/
def save_data (samples : List RawSample) : FileContent :=
  .parsed (encodeFile samples)

/-- Whether Python's `len()` is defined on the value `json.load` returns:
it is for a list, dict or string, and raises `TypeError` on a number or
`None`. -/
def hasLen : JValue → Bool
  | .jarr _ => true
  | .jobj _ => true
  | .jstr _ => true
  | _ => false

/-- `load_data` (lines 170-179), as a function of the file state and the
current `self.pointer_data` (as a JSON-level value): a missing file leaves
the store untouched and prints nothing; a `json.load` failure is caught by
the `except` clause, which prints an error message (the Boolean result
records whether such a warning was reported) and resets the store to `[]`;
a parsed value is assigned to `self.pointer_data` verbatim — but the
`len(self.pointer_data)` in the success print at line 176 is still inside
the `try`, so a parsed value without `len()` (a number or `null`) raises
`TypeError` there and likewise ends in the `except` clause: warning
printed, store reset to `[]`. It never propagates an exception. -/
def load_data (f : FileContent) (cur : JValue) : JValue × Bool :=
  match f with
  | .missing => (cur, false)
  | .unparseable => (.jarr [], true)
  | .parsed v => if hasLen v then (v, false) else (.jarr [], true)

/-! ## The monitoring state machine -/

/-- The mutable state of `PointerActivityMonitor` relevant to the
start/stop/visualize lifecycle: the `is_monitoring` flag, the in-memory
sample store `pointer_data`, the current `session_start_time`, whether a
mouse listener is attached, and the contents of the data file
(`none` = nothing written yet). -/
structure MonitorState where
  is_monitoring : Bool
  pointer_data : List RawSample
  session_start_time : Option String
  listener : Bool
  data_file : Option (List RawSample)
deriving DecidableEq, Repr

/-- `on_mouse_move` (lines 113-122): append a sample tagged with the
current session only while monitoring. -/
def on_mouse_move (x y : Int) (t : ℚ) (st : MonitorState) : MonitorState :=
  if st.is_monitoring then
    { st with pointer_data :=
        st.pointer_data ++ [⟨x, y, t, st.session_start_time⟩] }
  else st

/-- `start_monitoring` (lines 124-139): guarded by `is_monitoring`;
sets the flag, records the session start time and attaches a listener. -/
def start_monitoring (now : String) (st : MonitorState) : MonitorState :=
  if st.is_monitoring then st
  else { st with is_monitoring := true,
                 session_start_time := some now,
                 listener := true }

/-- `stop_monitoring` (lines 141-159): guarded by `is_monitoring`;
clears the flag, detaches the listener and saves the sample store to the
data file. -/
def stop_monitoring (st : MonitorState) : MonitorState :=
  if st.is_monitoring then
    { st with is_monitoring := false,
              listener := false,
              data_file := some st.pointer_data }
  else st

/-- The state effect of `show_visualization` (lines 293-302): stop
monitoring first when active; `create_heatmap` and the window setup read
`pointer_data` but mutate nothing. -/
def show_visualization (st : MonitorState) : MonitorState :=
  if st.is_monitoring then stop_monitoring st else st

/-- A raw pointer position `(x, y)` lies within screen region `r`. -/
def inRegion (r : Screen) (x y : Int) : Prop :=
  r.x ≤ x ∧ x ≤ r.x + r.width ∧ r.y ≤ y ∧ y ≤ r.y + r.height

instance (r : Screen) (x y : Int) : Decidable (inRegion r x y) := by
  unfold inRegion
  infer_instance

/-! ## Helper lemmas: folds computing minima and maxima -/

theorem foldl_min_le_init {α : Type} (f : α → Int) (l : List α) (init : Int) :
    l.foldl (fun m s => min m (f s)) init ≤ init := by
  induction l generalizing init with
  | nil => simp
  | cons a t ih =>
    calc t.foldl (fun m s => min m (f s)) (min init (f a))
        ≤ min init (f a) := ih _
      _ ≤ init := min_le_left _ _

theorem foldl_min_le_mem {α : Type} (f : α → Int) (l : List α) (init : Int)
    (r : α) (hr : r ∈ l) : l.foldl (fun m s => min m (f s)) init ≤ f r := by
  induction l generalizing init with
  | nil => cases hr
  | cons a t ih =>
    rcases List.mem_cons.mp hr with h | h
    · subst h
      calc t.foldl (fun m s => min m (f s)) (min init (f r))
          ≤ min init (f r) := foldl_min_le_init _ _ _
        _ ≤ f r := min_le_right _ _
    · exact ih _ h

theorem foldl_min_attained {α : Type} (f : α → Int) (l : List α) (init : Int) :
    l.foldl (fun m s => min m (f s)) init = init ∨
      ∃ r ∈ l, l.foldl (fun m s => min m (f s)) init = f r := by
  induction l generalizing init with
  | nil => exact Or.inl rfl
  | cons a t ih =>
    rcases ih (min init (f a)) with h | ⟨r, hr, hfr⟩
    · rcases min_choice init (f a) with hm | hm
      · exact Or.inl (by simpa [hm] using h)
      · exact Or.inr ⟨a, List.mem_cons_self a t, by simpa [hm] using h⟩
    · exact Or.inr ⟨r, List.mem_cons_of_mem _ hr, hfr⟩

theorem foldl_max_ge_init {α : Type} (f : α → Int) (l : List α) (init : Int) :
    init ≤ l.foldl (fun m s => max m (f s)) init := by
  induction l generalizing init with
  | nil => simp
  | cons a t ih =>
    calc init ≤ max init (f a) := le_max_left _ _
      _ ≤ t.foldl (fun m s => max m (f s)) (max init (f a)) := ih _

theorem foldl_max_ge_mem {α : Type} (f : α → Int) (l : List α) (init : Int)
    (r : α) (hr : r ∈ l) : f r ≤ l.foldl (fun m s => max m (f s)) init := by
  induction l generalizing init with
  | nil => cases hr
  | cons a t ih =>
    rcases List.mem_cons.mp hr with h | h
    · subst h
      calc f r ≤ max init (f r) := le_max_right _ _
        _ ≤ t.foldl (fun m s => max m (f s)) (max init (f r)) :=
            foldl_max_ge_init _ _ _
    · exact ih _ h

theorem foldl_max_attained {α : Type} (f : α → Int) (l : List α) (init : Int) :
    l.foldl (fun m s => max m (f s)) init = init ∨
      ∃ r ∈ l, l.foldl (fun m s => max m (f s)) init = f r := by
  induction l generalizing init with
  | nil => exact Or.inl rfl
  | cons a t ih =>
    rcases ih (max init (f a)) with h | ⟨r, hr, hfr⟩
    · rcases max_choice init (f a) with hm | hm
      · exact Or.inl (by simpa [hm] using h)
      · exact Or.inr ⟨a, List.mem_cons_self a t, by simpa [hm] using h⟩
    · exact Or.inr ⟨r, List.mem_cons_of_mem _ hr, hfr⟩

/-! ## Helper lemmas: bin indices -/

theorem ediv_bounds {N d : Int} (_hN : 0 ≤ N) (hd : 0 < d) :
    d * (N / d) ≤ N ∧ N < d * (N / d + 1) := by
  have h1 := Int.ediv_add_emod N d
  have h2 := Int.emod_nonneg N (ne_of_gt hd)
  have h3 := Int.emod_lt_of_pos N hd
  constructor <;> [linarith; nlinarith]

theorem binIndex1D_lt {lo hi : Int} {n : Nat} {v : Int} {i : Nat}
    (hn : 0 < n) (h : binIndex1D lo hi n v = some i) : i < n := by
  unfold binIndex1D at h
  split at h
  · exact absurd h (by simp)
  · rename_i hrange
    push_neg at hrange
    split at h
    · simp only [Option.some.injEq] at h
      omega
    · rename_i hne
      simp only [Option.some.injEq] at h
      have hvlt : v < hi := lt_of_le_of_ne hrange.2 hne
      have hd : (0 : Int) < hi - lo := by omega
      have hNn : (0 : Int) ≤ (v - lo) * n := mul_nonneg (by omega) (Int.natCast_nonneg n)
      obtain ⟨hl, hu⟩ := ediv_bounds hNn hd
      have hlt : (v - lo) * n < (hi - lo) * n := by
        have : (0 : Int) < (n : Int) := by exact_mod_cast hn
        exact mul_lt_mul_of_pos_right (by omega) this
      have hq : (v - lo) * n / (hi - lo) < (n : Int) := by nlinarith
      omega

theorem binSample_lt {b : Bounds} {p : RawSample} {i j : Nat}
    (h : binSample b p = some (i, j)) : i < numBins ∧ j < numBins := by
  have hn : 0 < numBins := by decide
  unfold binSample at h
  cases h1 : binIndex1D b.min_x b.max_x numBins p.x with
  | none => rw [h1] at h; simp at h
  | some i' =>
    cases h2 : binIndex1D b.min_y b.max_y numBins (normY p.y) with
    | none => rw [h1, h2] at h; simp at h
    | some j' =>
      rw [h1, h2] at h
      simp only [Option.some.injEq, Prod.mk.injEq] at h
      obtain ⟨rfl, rfl⟩ := h
      exact ⟨binIndex1D_lt hn h1, binIndex1D_lt hn h2⟩

/-! ## Helper lemmas: grid sums -/

theorem sum_map_range (f : ℕ → ℕ) (n : ℕ) :
    ((List.range n).map f).sum = ∑ x ∈ Finset.range n, f x := by
  induction n with
  | zero => simp
  | succ m ih =>
    rw [List.range_succ, List.map_append, List.sum_append,
      Finset.sum_range_succ, ih]
    simp

theorem gridSum_eq (b : Bounds) (S : List RawSample) :
    gridSum b S =
      ∑ i ∈ Finset.range numBins, ∑ j ∈ Finset.range numBins,
        cellCount b S i j := by
  unfold gridSum heatmapGrid
  rw [List.map_map]
  simp only [Function.comp_def]
  rw [sum_map_range (fun i => ((List.range numBins).map
    (fun j => cellCount b S i j)).sum) numBins]
  exact Finset.sum_congr rfl fun i _ => sum_map_range _ _

theorem cellCount_cons (b : Bounds) (p : RawSample) (S : List RawSample)
    (i j : Nat) :
    cellCount b (p :: S) i j =
      cellCount b S i j + (if binSample b p = some (i, j) then 1 else 0) := by
  simp [cellCount, List.countP_cons]

theorem gridSum_cons (b : Bounds) (p : RawSample) (S : List RawSample) :
    gridSum b (p :: S) =
      gridSum b S + (if (binSample b p).isSome then 1 else 0) := by
  rw [gridSum_eq, gridSum_eq]
  have hsplit :
      (∑ i ∈ Finset.range numBins, ∑ j ∈ Finset.range numBins,
        cellCount b (p :: S) i j) =
      (∑ i ∈ Finset.range numBins, ∑ j ∈ Finset.range numBins,
        cellCount b S i j) +
      (∑ i ∈ Finset.range numBins, ∑ j ∈ Finset.range numBins,
        (if binSample b p = some (i, j) then 1 else 0)) := by
    rw [← Finset.sum_add_distrib]
    refine Finset.sum_congr rfl fun i _ => ?_
    rw [← Finset.sum_add_distrib]
    exact Finset.sum_congr rfl fun j _ => cellCount_cons b p S i j
  rw [hsplit]
  have hX : (∑ i ∈ Finset.range numBins, ∑ j ∈ Finset.range numBins,
      (if binSample b p = some (i, j) then 1 else 0)) =
      (if (binSample b p).isSome then 1 else 0) := by
    cases hbp : binSample b p with
    | none => simp
    | some ij =>
      obtain ⟨i0, j0⟩ := ij
      obtain ⟨hi0, hj0⟩ := binSample_lt hbp
      have hinner : ∀ i, (∑ j ∈ Finset.range numBins,
          (if some ((i0 : Nat), (j0 : Nat)) = some (i, j) then 1 else 0)) =
          (if i0 = i then 1 else 0) := by
        intro i
        by_cases hii : i0 = i
        · subst hii
          simp only [Option.some.injEq, Prod.mk.injEq, true_and, if_pos rfl]
          rw [Finset.sum_ite_eq]
          simp [hj0]
        · simp [Option.some.injEq, Prod.mk.injEq, hii]
      rw [Finset.sum_congr rfl fun i _ => hinner i, Finset.sum_ite_eq]
      simp [hi0]
  rw [hX]

theorem gridSum_eq_filter (b : Bounds) (S : List RawSample) :
    gridSum b S = (S.filter (fun p => (binSample b p).isSome)).length := by
  induction S with
  | nil => simp [gridSum_eq, cellCount]
  | cons p S ih =>
    rw [gridSum_cons, ih, List.filter_cons]
    by_cases hp : (binSample b p).isSome <;> simp [hp]

/-! ## Claims -/

/-- C1 (counterexample): the claim states `min_y = min(region.y)` over all
regions, but `__init__` sets `min_y = 0` unconditionally; for the single
region with origin `(0, 5)` and size `10 × 10` the code resolves
`min_y = 0` while the minimum of the region origins is `5`. -/
theorem claim_c1_counterexample :
    (resolveBounds ⟨0, 5, 10, 10⟩ []).min_y ≠ specMinY ⟨0, 5, 10, 10⟩ [] := by
  decide

/-- C1 (amended): for every non-empty set of screen regions the resolved
bounds satisfy `min_x = min(region.x)`, `max_x = max(region.x + width)`
and `max_y = max(region.y + height)` (each is a lower/upper bound attained
by some region), but `min_y = 0` unconditionally rather than
`min(region.y)`; for the regions A at `(0,0)` size `1512 × 982` and B at
`(-217, 982)` size `1920 × 1080` the bounds resolve to `min_x = -217` and
`max_x = 1703`. -/
theorem claim_c1 (s0 : Screen) (rest : List Screen) :
    (∀ r ∈ s0 :: rest, (resolveBounds s0 rest).min_x ≤ r.x) ∧
    (∃ r ∈ s0 :: rest, (resolveBounds s0 rest).min_x = r.x) ∧
    (∀ r ∈ s0 :: rest, r.x + r.width ≤ (resolveBounds s0 rest).max_x) ∧
    (∃ r ∈ s0 :: rest, (resolveBounds s0 rest).max_x = r.x + r.width) ∧
    (∀ r ∈ s0 :: rest, r.y + r.height ≤ (resolveBounds s0 rest).max_y) ∧
    (∃ r ∈ s0 :: rest, (resolveBounds s0 rest).max_y = r.y + r.height) ∧
    (resolveBounds s0 rest).min_y = 0 ∧
    (resolveBounds ⟨0, 0, 1512, 982⟩ [⟨-217, 982, 1920, 1080⟩]).min_x = -217 ∧
    (resolveBounds ⟨0, 0, 1512, 982⟩ [⟨-217, 982, 1920, 1080⟩]).max_x = 1703 := by
  refine ⟨?_, ?_, ?_, ?_, ?_, ?_, rfl, by decide, by decide⟩
  · intro r hr
    rcases List.mem_cons.mp hr with h | h
    · subst h
      exact foldl_min_le_init (fun s => s.x) rest r.x
    · exact foldl_min_le_mem (fun s => s.x) rest s0.x r h
  · rcases foldl_min_attained (fun s => s.x) rest s0.x with h | ⟨r, hr, hfr⟩
    · exact ⟨s0, List.mem_cons_self _ _, h⟩
    · exact ⟨r, List.mem_cons_of_mem _ hr, hfr⟩
  · intro r hr
    rcases List.mem_cons.mp hr with h | h
    · subst h
      exact foldl_max_ge_init (fun s => s.x + s.width) rest (r.x + r.width)
    · exact foldl_max_ge_mem (fun s => s.x + s.width) rest (s0.x + s0.width) r h
  · rcases foldl_max_attained (fun s => s.x + s.width) rest (s0.x + s0.width)
      with h | ⟨r, hr, hfr⟩
    · exact ⟨s0, List.mem_cons_self _ _, h⟩
    · exact ⟨r, List.mem_cons_of_mem _ hr, hfr⟩
  · intro r hr
    rcases List.mem_cons.mp hr with h | h
    · subst h
      exact foldl_max_ge_init (fun s => s.y + s.height) rest (r.y + r.height)
    · exact foldl_max_ge_mem (fun s => s.y + s.height) rest
        (s0.y + s0.height) r h
  · rcases foldl_max_attained (fun s => s.y + s.height) rest
      (s0.y + s0.height) with h | ⟨r, hr, hfr⟩
    · exact ⟨s0, List.mem_cons_self _ _, h⟩
    · exact ⟨r, List.mem_cons_of_mem _ hr, hfr⟩

/-- C1 (witness): the amended claim instantiated at the two regions of the
spec scenario. -/
theorem claim_c1_witness :
    (resolveBounds ⟨0, 0, 1512, 982⟩ [⟨-217, 982, 1920, 1080⟩]).min_x ≤ -217 ∧
    (resolveBounds ⟨0, 0, 1512, 982⟩ [⟨-217, 982, 1920, 1080⟩]).min_y = 0 ∧
    (resolveBounds ⟨0, 0, 1512, 982⟩ [⟨-217, 982, 1920, 1080⟩]).min_x = -217 ∧
    (resolveBounds ⟨0, 0, 1512, 982⟩ [⟨-217, 982, 1920, 1080⟩]).max_x = 1703 := by
  have h := claim_c1 ⟨0, 0, 1512, 982⟩ [⟨-217, 982, 1920, 1080⟩]
  exact ⟨h.1 ⟨-217, 982, 1920, 1080⟩ (by decide), h.2.2.2.2.2.2.1,
    h.2.2.2.2.2.2.2.1, h.2.2.2.2.2.2.2.2⟩

/-- C2 (counterexample): the sum of all density-grid cell counts does not
equal `|S|` for every `S` and bounds: `np.histogram2d` silently drops a
sample outside the bounds, here `x = 11` over bounds `[0, 10] × [0, 10]`,
giving grid sum `0` for a one-sample sequence. -/
theorem claim_c2_counterexample :
    gridSum ⟨0, 10, 0, 10⟩ [⟨11, 0, 0, none⟩] ≠
      ([⟨11, 0, 0, none⟩] : List RawSample).length := by
  rw [gridSum_eq_filter]
  decide

/-- C2 (amended): the sum of all density-grid cell counts equals the
number of samples kept by binning (those whose normalized coordinates lie
within the bounds); in particular it equals `|S|` whenever every sample of
`S` is kept, but out-of-bounds samples are silently dropped. -/
theorem claim_c2 (b : Bounds) (S : List RawSample)
    (h : ∀ p ∈ S, (binSample b p).isSome) :
    gridSum b S = S.length := by
  rw [gridSum_eq_filter]
  rw [List.filter_eq_self.mpr h]

/-- C2 (witness): the amended claim at bounds `[0, 10] × [0, 10]` and the
single in-range sample `(3, 4)`: the grid sum is `1`. -/
theorem claim_c2_witness :
    gridSum ⟨0, 10, 0, 10⟩ [⟨3, 4, 0, none⟩] = 1 :=
  claim_c2 ⟨0, 10, 0, 10⟩ [⟨3, 4, 0, none⟩] (by decide)

/-- C3 (counterexample): a sample originating from a region of the
topology can normalize outside the resolved bounds: for regions
`⟨0, 0, 100, 100⟩` and `⟨0, -500, 100, 500⟩` the resolved `max_y` is
`100`, yet the sample `(0, -500)` of the second region normalizes to
`y = 500 > 100`, because the y-normalization takes the absolute value. -/
theorem claim_c3_counterexample :
    inRegion ⟨0, -500, 100, 500⟩ 0 (-500) ∧
    ¬ (normY (-500) ≤
        (resolveBounds ⟨0, 0, 100, 100⟩ [⟨0, -500, 100, 500⟩]).max_y) := by
  decide

/-- C3 (amended): for a raw sample from a region `r` of the resolved
topology, the normalized coordinates `(x, |y|)` satisfy
`min_x ≤ x ≤ max_x` and `min_y ≤ |y|`; the upper bound `|y| ≤ max_y`
holds under the additional premise `-r.y ≤ max_y` (the magnitude of the
region's negative origin does not exceed `max_y`, as in the documented
two-monitor topology). -/
theorem claim_c3 (s0 : Screen) (rest : List Screen) (r : Screen)
    (hr : r ∈ s0 :: rest) (x y : Int) (hin : inRegion r x y)
    (hneg : -r.y ≤ (resolveBounds s0 rest).max_y) :
    (resolveBounds s0 rest).min_x ≤ x ∧
    x ≤ (resolveBounds s0 rest).max_x ∧
    (resolveBounds s0 rest).min_y ≤ normY y ∧
    normY y ≤ (resolveBounds s0 rest).max_y := by
  obtain ⟨hx1, hx2, hy1, hy2⟩ := hin
  have hminx : (resolveBounds s0 rest).min_x ≤ r.x := by
    rcases List.mem_cons.mp hr with h | h
    · subst h
      exact foldl_min_le_init (fun s => s.x) rest r.x
    · exact foldl_min_le_mem (fun s => s.x) rest s0.x r h
  have hmaxx : r.x + r.width ≤ (resolveBounds s0 rest).max_x := by
    rcases List.mem_cons.mp hr with h | h
    · subst h
      exact foldl_max_ge_init (fun s => s.x + s.width) rest (r.x + r.width)
    · exact foldl_max_ge_mem (fun s => s.x + s.width) rest (s0.x + s0.width) r h
  have hmaxy : r.y + r.height ≤ (resolveBounds s0 rest).max_y := by
    rcases List.mem_cons.mp hr with h | h
    · subst h
      exact foldl_max_ge_init (fun s => s.y + s.height) rest (r.y + r.height)
    · exact foldl_max_ge_mem (fun s => s.y + s.height) rest
        (s0.y + s0.height) r h
  refine ⟨le_trans hminx hx1, le_trans hx2 hmaxx, ?_, ?_⟩
  · show (0 : Int) ≤ normY y
    unfold normY
    split <;> omega
  · unfold normY
    split
    · omega
    · omega

/-- C3 (witness): the amended claim at the spec's two-region scenario,
for the sample `(-217, 982)` of region B. -/
theorem claim_c3_witness :
    (resolveBounds ⟨0, 0, 1512, 982⟩ [⟨-217, 982, 1920, 1080⟩]).min_x ≤ -217 ∧
    (-217 : Int) ≤ (resolveBounds ⟨0, 0, 1512, 982⟩
      [⟨-217, 982, 1920, 1080⟩]).max_x ∧
    (resolveBounds ⟨0, 0, 1512, 982⟩
      [⟨-217, 982, 1920, 1080⟩]).min_y ≤ normY 982 ∧
    normY 982 ≤ (resolveBounds ⟨0, 0, 1512, 982⟩
      [⟨-217, 982, 1920, 1080⟩]).max_y :=
  claim_c3 ⟨0, 0, 1512, 982⟩ [⟨-217, 982, 1920, 1080⟩]
    ⟨-217, 982, 1920, 1080⟩ (by decide) (-217) 982 (by decide) (by decide)

/-- C4: binning partitions `[lo, hi]` into `n` equal-width half-open
intervals with the last interval closed on the right: every value in
`[lo, hi]` receives an index `i < n` whose interval contains it (expressed
multiplied out, `i * (hi - lo) ≤ (v - lo) * n < (i + 1) * (hi - lo)`,
except at `v = hi` which falls in the last interval); a value exactly at
the maximum bins into cell `n - 1`; no sample ever yields an out-of-range
index; and the normalized sample exactly at `(max_x, max_y)` increments
cell `(numBins - 1, numBins - 1)` of the grid. -/
theorem claim_c4 (lo hi : Int) (n : Nat) (b : Bounds) (hn : 0 < n)
    (hlohi : lo < hi) (hbx : b.min_x ≤ b.max_x) (hby : b.min_y ≤ b.max_y)
    (hy0 : 0 ≤ b.max_y) :
    (∀ v, lo ≤ v → v ≤ hi → ∃ i, binIndex1D lo hi n v = some i ∧ i < n ∧
      (i : Int) * (hi - lo) ≤ (v - lo) * n ∧
      ((v - lo) * n < ((i : Int) + 1) * (hi - lo) ∨ (v = hi ∧ i = n - 1))) ∧
    binIndex1D lo hi n hi = some (n - 1) ∧
    (∀ v i, binIndex1D lo hi n v = some i → i < n) ∧
    binSample b ⟨b.max_x, b.max_y, 0, none⟩ =
      some (numBins - 1, numBins - 1) := by
  have hlast : binIndex1D lo hi n hi = some (n - 1) := by
    unfold binIndex1D
    rw [if_neg (by omega), if_pos rfl]
  refine ⟨?_, hlast, fun v i h => binIndex1D_lt hn h, ?_⟩
  · intro v hv1 hv2
    by_cases hvhi : v = hi
    · subst hvhi
      refine ⟨n - 1, hlast, by omega, ?_, Or.inr ⟨rfl, rfl⟩⟩
      have hc : ((n - 1 : Nat) : Int) = (n : Int) - 1 :=
        Int.ofNat_sub hn
      have hn1 : (1 : Int) ≤ (n : Int) := by exact_mod_cast hn
      rw [hc]
      nlinarith
    · have hvlt : v < hi := lt_of_le_of_ne hv2 hvhi
      have hd : (0 : Int) < hi - lo := by omega
      have hNn : (0 : Int) ≤ (v - lo) * n :=
        mul_nonneg (by omega) (Int.natCast_nonneg n)
      obtain ⟨hl, hu⟩ := ediv_bounds hNn hd
      have hq0 : (0 : Int) ≤ (v - lo) * n / (hi - lo) :=
        Int.ediv_nonneg hNn hd.le
      have hlt : (v - lo) * n < (hi - lo) * n := by
        have hnn : (0 : Int) < (n : Int) := by exact_mod_cast hn
        exact mul_lt_mul_of_pos_right (by omega) hnn
      have hq : (v - lo) * n / (hi - lo) < (n : Int) := by nlinarith
      refine ⟨((v - lo) * n / (hi - lo)).toNat, ?_, by omega, ?_, Or.inl ?_⟩
      · unfold binIndex1D
        rw [if_neg (by omega), if_neg hvhi]
      · rw [Int.toNat_of_nonneg hq0]
        linarith [hl]
      · rw [Int.toNat_of_nonneg hq0]
        linarith [hu]
  · have e1 : binIndex1D b.min_x b.max_x numBins b.max_x =
        some (numBins - 1) := by
      unfold binIndex1D
      rw [if_neg (by omega), if_pos rfl]
    have eN : normY b.max_y = b.max_y := by
      unfold normY
      rw [if_neg (not_lt.mpr hy0)]
    have e2 : binIndex1D b.min_y b.max_y numBins (normY b.max_y) =
        some (numBins - 1) := by
      rw [eN]
      unfold binIndex1D
      rw [if_neg (by omega), if_pos rfl]
    unfold binSample
    rw [e1, e2]

/-- C4 (witness): the theorem at `[0, 10]` with `5` bins and the bounds
`[0, 10] × [0, 10]`: the maximum bins into the last cell. -/
theorem claim_c4_witness :
    binIndex1D 0 10 5 10 = some 4 ∧
    binSample ⟨0, 10, 0, 10⟩ ⟨10, 10, 0, none⟩ =
      some (numBins - 1, numBins - 1) := by
  have h := claim_c4 0 10 5 ⟨0, 10, 0, 10⟩ (by decide) (by decide)
    (by decide) (by decide) (by decide)
  exact ⟨h.2.1, h.2.2.2⟩

/-- C5 (counterexample): the density grid produced by `create_heatmap`
does not have 120 rows: `np.linspace(min, max, 120)` yields 120 edges and
so 119 bins per axis. -/
theorem claim_c5_counterexample :
    (heatmapGrid ⟨0, 10, 0, 10⟩ [⟨0, 0, 0, none⟩]).length ≠ 120 := by
  simp [heatmapGrid, numBins, numEdges]

/-- C5 (amended): the density grid is a 2-D array of non-negative integer
counts of fixed shape `119 × 119` (not `120 × 120`: the configured value
120 is the number of `np.linspace` edges, one more than the number of
bins). -/
theorem claim_c5 (b : Bounds) (samples : List RawSample) :
    (heatmapGrid b samples).length = 119 ∧
    (heatmapGrid b samples).map List.length = List.replicate 119 119 := by
  constructor
  · simp [heatmapGrid, numBins, numEdges]
  · simp [heatmapGrid, numBins, numEdges, List.map_map, Function.comp_def]

/-- C6: saving a sample sequence and loading it back yields exactly the
persisted representation of that sequence, and decoding it recovers the
sequence itself: order and every field (`x`, `y`, `timestamp`, `session`)
of every sample are preserved. -/
theorem claim_c6 (S : List RawSample) (cur : JValue) :
    load_data (save_data S) cur = (encodeFile S, false) ∧
    decodeFile (encodeFile S) = some S := by
  refine ⟨rfl, ?_⟩
  show decodeSamples (S.map encodeSample) = some S
  induction S with
  | nil => rfl
  | cons s S ih =>
    have hs : decodeSample (encodeSample s) = some s := by
      cases s with
      | mk x y t sess =>
        cases sess <;>
          simp [encodeSample, decodeSample, jint, decodeSession,
            Rat.den_intCast, Rat.num_intCast]
    simp [decodeSamples, hs, ih]

/-- C7: `start_monitoring` and `stop_monitoring` are idempotent no-ops
when already in the target state: a second consecutive stop (and likewise
a second start) changes nothing, neither changes the sample store, and the
sequence start, stop, start, stop leaves the store unchanged throughout
(and, being total functions, never raises). -/
theorem claim_c7 (st : MonitorState) (now now2 : String) :
    stop_monitoring (stop_monitoring st) = stop_monitoring st ∧
    (stop_monitoring st).pointer_data = st.pointer_data ∧
    start_monitoring now2 (start_monitoring now st) =
      start_monitoring now st ∧
    (start_monitoring now st).pointer_data = st.pointer_data ∧
    (stop_monitoring (start_monitoring now2 (stop_monitoring
      (start_monitoring now st)))).pointer_data = st.pointer_data := by
  rcases st with ⟨m, d, s, l, f⟩
  cases m <;> simp [start_monitoring, stop_monitoring]

/-- C8 (counterexample): `load_data` on a missing source does not report
a warning: the `os.path.exists` guard is false and the function silently
does nothing. -/
theorem claim_c8_counterexample :
    (load_data FileContent.missing (JValue.jarr [])).2 = false := rfl

/-- C8 (amended): `load_data` never terminates the process; on a source
whose contents fail to parse — and also on one that parses to a value
without `len()` (a number or `null`), where the success print at line 176
raises `TypeError` inside the `try` — it yields an empty store and
reports a recoverable warning; but on a missing source it leaves the
store unchanged (empty at startup) and reports nothing, and a parsed
array, object or string is assigned to the store verbatim without
validation and without warning. -/
theorem claim_c8 (cur : JValue) :
    load_data FileContent.missing cur = (cur, false) ∧
    load_data FileContent.unparseable cur = (JValue.jarr [], true) ∧
    (∀ q, load_data (FileContent.parsed (JValue.jnum q)) cur =
      (JValue.jarr [], true)) ∧
    load_data (FileContent.parsed JValue.jnull) cur =
      (JValue.jarr [], true) ∧
    (∀ vs, load_data (FileContent.parsed (JValue.jarr vs)) cur =
      (JValue.jarr vs, false)) ∧
    (∀ fields, load_data (FileContent.parsed (JValue.jobj fields)) cur =
      (JValue.jobj fields, false)) ∧
    (∀ s, load_data (FileContent.parsed (JValue.jstr s)) cur =
      (JValue.jstr s, false)) :=
  ⟨rfl, rfl, fun _ => rfl, rfl, fun _ => rfl, fun _ => rfl, fun _ => rfl⟩

/-- C9: requesting a visualization while monitoring is active first stops
monitoring: afterwards `is_monitoring` is false, the full sample store has
been written to the data file, the store itself is unchanged, and
monitoring is not resumed; when already idle the request changes
nothing. -/
theorem claim_c9 (st : MonitorState) :
    (show_visualization st).is_monitoring = false ∧
    (show_visualization st).pointer_data = st.pointer_data ∧
    (st.is_monitoring = true →
      show_visualization st =
        { st with is_monitoring := false, listener := false,
                  data_file := some st.pointer_data }) ∧
    (st.is_monitoring = false → show_visualization st = st) := by
  rcases st with ⟨m, d, s, l, f⟩
  cases m <;> simp [show_visualization, stop_monitoring]

/-- C9 (witness): the theorem at a concrete active state with one stored
sample: visualization stops monitoring and writes the store to the file. -/
theorem claim_c9_witness :
    (show_visualization
      ⟨true, [⟨1, 2, 0, none⟩], some "s", true, none⟩).is_monitoring
        = false ∧
    show_visualization ⟨true, [⟨1, 2, 0, none⟩], some "s", true, none⟩ =
      ⟨false, [⟨1, 2, 0, none⟩], some "s", false,
        some [⟨1, 2, 0, none⟩]⟩ := by
  have h := claim_c9 ⟨true, [⟨1, 2, 0, none⟩], some "s", true, none⟩
  exact ⟨h.1, h.2.2.1 rfl⟩

/-- C10: the y-normalization before binning maps every raw y coordinate to
its absolute value, so the raw samples `(x, y)` and `(x, -y)` normalize to
the same point and are assigned the same grid cell (or are both dropped):
the density grid cannot distinguish a position on a negative-origin screen
from its mirror position at positive y. -/
theorem claim_c10 (b : Bounds) (x y : Int) (t t2 : ℚ)
    (sess sess2 : Option String) :
    normY y = |y| ∧
    normY (-y) = normY y ∧
    binSample b ⟨x, -y, t2, sess2⟩ = binSample b ⟨x, y, t, sess⟩ := by
  have habs : normY y = |y| := by
    unfold normY
    split
    · rw [abs_of_neg (by assumption)]
    · rw [abs_of_nonneg (by omega)]
  have hneg : normY (-y) = normY y := by
    unfold normY
    rcases lt_trichotomy y 0 with h | h | h
    · rw [if_neg (by omega), if_pos h]
    · subst h
      norm_num
    · rw [if_pos (by omega), if_neg (by omega), neg_neg]
  refine ⟨habs, hneg, ?_⟩
  unfold binSample
  dsimp only
  rw [hneg]

end PointerMonitor
